import Mathlib

/-!
Shallow embedding of the tabular ingestion pipeline of the
`llm-sheet-analysis` repository (Rust), together with theorems settling the
frozen claims about its specification.

Embedded source files:
  * `src/services/excel/utils.rs` — `clean_column_name`, `update_min_max`,
    `merge_min_max`, `is_date_string`;
  * `src/services/excel/analyzer.rs` — `ExcelAnalyzer::detect_column_type`,
    `ExcelAnalyzer::analyze_column`, the per-column value extraction of
    `ExcelAnalyzer::analyze_from_bytes`;
  * `src/services/excel/processor.rs` — `ExcelProcessor::clean_dataframe`,
    `ExcelProcessor::detect_date_columns`, `ExcelProcessor::normalize_date_columns`;
  * `src/services/db_loader.rs` — `DbLoader::load_dataframe`, `DbLoader::has_data`.

Machine integers are modelled as `Nat`/`Int`.  The single floating-point
comparison in the code base (`count as f64 >= total as f64 * 0.8` in
`detect_column_type`) is embedded as the exact integer comparison
`5 * count ≥ 4 * total`; for the totals reachable there (bounded well below
2^50) the IEEE-754 double computation agrees exactly with the rational
comparison, since `total * (double)0.8` rounds to a value whose floor and
comparison against every integer coincide with those of `0.8 * total`.
-/

namespace SheetIngest

/-! ## Calamine cell values (`calamine::Data`)

The decoded spreadsheet cell union.  Payloads that the embedded code only
ever converts to text (floats, datetimes, the ISO/error variants) are carried
as their rendered string, since none of the embedded functions inspects them
otherwise.  `toStr` embeds calamine's `Display` implementation (`Empty`
renders as the empty string). -/

inductive XData where
  | empty : XData
  | int : Int → XData
  | float : String → XData
  | string : String → XData
  | bool : Bool → XData
  | dateTime : String → XData
  | other : String → XData
deriving DecidableEq, Repr

def XData.isEmptyCell : XData → Bool
  | .empty => true
  | _ => false

def XData.toStr : XData → String
  | .empty => ""
  | .int i => toString i
  | .float r => r
  | .string s => s
  | .bool b => cond b "true" "false"
  | .dateTime r => r
  | .other r => r

/-! ## Chrono date parsing model (`is_date_string`, utils.rs lines 97–115)

The Rust code calls `chrono::NaiveDateTime::parse_from_str(s, format)` for a
fixed list of seven formats.  We model chrono's strftime parser on the item
kinds those formats use: numeric fields parse greedily one or more digits (at
most two for month/day/hour/minute/second), a literal must match exactly, the
whole input must be consumed, the parsed fields must be in range
(month 1–12, day 1–31, hour ≤ 23, minute ≤ 59, second ≤ 60), and — the
property `NaiveDateTime::parse_from_str` is documented to enforce — the
result is `Ok` only when both a complete date (year, month, day) and a
complete time (hour, minute) have been parsed.  A date-only format therefore
never yields `Ok`, whatever the input. -/

inductive FmtItem where
  | lit : Char → FmtItem
  | year : FmtItem
  | month : FmtItem
  | day : FmtItem
  | hour : FmtItem
  | minute : FmtItem
  | second : FmtItem
deriving DecidableEq, Repr

/-- Greedily take at most `maxD` leading decimal digits; returns the digit
characters and the remaining input. -/
def takeDigits : Nat → List Char → List Char × List Char
  | 0, cs => ([], cs)
  | _ + 1, [] => ([], [])
  | maxD + 1, c :: cs =>
      if c.isDigit then
        let (ds, rest) := takeDigits maxD cs
        (c :: ds, rest)
      else ([], c :: cs)

def digitsVal (ds : List Char) : Nat :=
  ds.foldl (fun a c => a * 10 + (c.toNat - 48)) 0

/-- Fields collected while parsing one format. -/
structure ParsedFields where
  year : Option Nat := none
  month : Option Nat := none
  day : Option Nat := none
  hour : Option Nat := none
  minute : Option Nat := none
  second : Option Nat := none
deriving DecidableEq, Repr

/-- Maximum digit width of a numeric strftime item (chrono parses year
fields greedily, two-digit fields up to width 2). -/
def itemWidth : FmtItem → Nat
  | .year => 10
  | _ => 2

def setField (p : ParsedFields) (it : FmtItem) (v : Nat) : ParsedFields :=
  match it with
  | .lit _ => p
  | .year => { p with year := some v }
  | .month => { p with month := some v }
  | .day => { p with day := some v }
  | .hour => { p with hour := some v }
  | .minute => { p with minute := some v }
  | .second => { p with second := some v }

def runItems : List FmtItem → List Char → ParsedFields → Option ParsedFields
  | [], [], p => some p
  | [], _ :: _, _ => none
  | .lit c :: its, cs, p =>
      match cs with
      | [] => none
      | c0 :: cs0 => if c0 = c then runItems its cs0 p else none
  | it :: its, cs, p =>
      let td := takeDigits (itemWidth it) cs
      if td.1.isEmpty then none
      else runItems its td.2 (setField p it (digitsVal td.1))

def fieldsValid (p : ParsedFields) : Bool :=
  (match p.month with | some m => decide (1 ≤ m ∧ m ≤ 12) | none => true) &&
  (match p.day with | some d => decide (1 ≤ d ∧ d ≤ 31) | none => true) &&
  (match p.hour with | some h => decide (h ≤ 23) | none => true) &&
  (match p.minute with | some mi => decide (mi ≤ 59) | none => true) &&
  (match p.second with | some s => decide (s ≤ 60) | none => true)

/-- `chrono::NaiveDateTime::parse_from_str s fmt |>.is_ok()`: every item
matched, the input is exhausted, fields are in range, and both the date part
(year, month, day) and the time part (hour, minute) are complete. -/
def parseNaiveDateTimeOk (items : List FmtItem) (s : String) : Bool :=
  match runItems items s.data {} with
  | none => false
  | some p =>
      fieldsValid p && p.year.isSome && p.month.isSome && p.day.isSome &&
        p.hour.isSome && p.minute.isSome

/-- The item lists of the seven format strings of `is_date_string`, in source
order: `"%Y-%m-%d"`, `"%d/%m/%Y"`, `"%m/%d/%Y"`, `"%Y/%m/%d"`, `"%d-%m-%Y"`,
`"%Y-%m-%d %H:%M:%S"`, `"%d/%m/%Y %H:%M:%S"`. -/
def dateFormats : List (List FmtItem) :=
  [ [.year, .lit '-', .month, .lit '-', .day],
    [.day, .lit '/', .month, .lit '/', .year],
    [.month, .lit '/', .day, .lit '/', .year],
    [.year, .lit '/', .month, .lit '/', .day],
    [.day, .lit '-', .month, .lit '-', .year],
    [.year, .lit '-', .month, .lit '-', .day, .lit ' ',
      .hour, .lit ':', .minute, .lit ':', .second],
    [.day, .lit '/', .month, .lit '/', .year, .lit ' ',
      .hour, .lit ':', .minute, .lit ':', .second] ]

/-- `is_date_string` (utils.rs lines 97–115): try each format in order and
return true if any `NaiveDateTime::parse_from_str` call succeeds. -/
def isDateString (s : String) : Bool :=
  dateFormats.any (fun f => parseNaiveDateTimeOk f s)

/-! ## `ExcelAnalyzer::detect_column_type` (analyzer.rs lines 205–239)

`values.par_iter().take(TYPE_DETECTION_ROWS).filter(not Empty)` feeds a
fold counting numeric / date / boolean / empty cells (the `Data::Empty` arm
of the fold is dead code: empties were already filtered out).  Then
`total = values.len() - empty_count`, `"empty"` when `total == 0`, and the
first of numeric/date/boolean whose count reaches `total * 0.8` wins,
otherwise `"string"`.  The `>= total as f64 * 0.8` test is embedded as
`5 * count ≥ 4 * total` (exact, see the header comment). -/

def TYPE_DETECTION_ROWS : Nat := 100

/-- One step of the counting fold of `detect_column_type`; the accumulator is
`(numeric_count, date_count, bool_count, empty_count)`. -/
def detectStep (acc : Nat × Nat × Nat × Nat) (v : XData) : Nat × Nat × Nat × Nat :=
  match v with
  | .float _ => (acc.1 + 1, acc.2.1, acc.2.2.1, acc.2.2.2)
  | .int _ => (acc.1 + 1, acc.2.1, acc.2.2.1, acc.2.2.2)
  | .dateTime _ => (acc.1, acc.2.1 + 1, acc.2.2.1, acc.2.2.2)
  | .string s =>
      if isDateString s then (acc.1, acc.2.1 + 1, acc.2.2.1, acc.2.2.2) else acc
  | .bool _ => (acc.1, acc.2.1, acc.2.2.1 + 1, acc.2.2.2)
  | .empty => (acc.1, acc.2.1, acc.2.2.1, acc.2.2.2 + 1)
  | .other _ => acc

def detectCounts (values : List XData) : Nat × Nat × Nat × Nat :=
  (((values.take TYPE_DETECTION_ROWS).filter
      (fun v => !v.isEmptyCell)).foldl detectStep (0, 0, 0, 0))

def detectColumnType (values : List XData) : String :=
  let c := detectCounts values
  let total := values.length - c.2.2.2
  if total = 0 then "empty"
  else if 5 * c.1 ≥ 4 * total then "numeric"
  else if 5 * c.2.1 ≥ 4 * total then "date"
  else if 5 * c.2.2.1 ≥ 4 * total then "boolean"
  else "string"

/-! ## Column statistics (`update_min_max`, `merge_min_max`, utils.rs;
`ExcelAnalyzer::analyze_column`, analyzer.rs lines 153–203) -/

/-- `update_min_max` (utils.rs lines 66–78): pointwise update of a running
`(min, max)` pair of lexicographically ordered strings. -/
def updateMinMax (mm : Option String × Option String) (value : String) :
    Option String × Option String :=
  let lo := match mm.1 with
    | some minVal => if value < minVal then some value else some minVal
    | none => some value
  let hi := match mm.2 with
    | some maxVal => if maxVal < value then some value else some maxVal
    | none => some value
  (lo, hi)

/-- `merge_min_max` (utils.rs lines 80–95). -/
def mergeMinMax (a b : Option String × Option String) :
    Option String × Option String :=
  let lo := match a.1, b.1 with
    | none, none => none
    | some v, none => some v
    | none, some v => some v
    | some v1, some v2 => some (if v1 < v2 then v1 else v2)
  let hi := match a.2, b.2 with
    | none, none => none
    | some v, none => some v
    | none, some v => some v
    | some v1, some v2 => some (if v2 < v1 then v1 else v2)
  (lo, hi)

/-- Partial statistics of `analyze_column`'s fold:
`(null_count, distinct non-null renderings, (min, max))`. -/
abbrev ColStats : Type := Nat × Finset String × (Option String × Option String)

def statsInit : ColStats := (0, ∅, (none, none))

/-- The per-element fold body of `analyze_column` (analyzer.rs lines 156–169). -/
def statsStep (st : ColStats) (v : XData) : ColStats :=
  let strValue := v.toStr
  if v.isEmptyCell then (st.1 + 1, st.2.1, st.2.2)
  else (st.1, insert strValue st.2.1, updateMinMax st.2.2 strValue)

/-- The reduce body of `analyze_column` (analyzer.rs lines 170–181):
null counts add, distinct sets union, min/max merge. -/
def statsMerge (a b : ColStats) : ColStats :=
  (a.1 + b.1, a.2.1 ∪ b.2.1, mergeMinMax a.2.2 b.2.2)

def foldStats (values : List XData) : ColStats :=
  values.foldl statsStep statsInit

/-- `ColumnInfo` (types.rs). -/
structure ColumnInfo where
  name : String
  dataType : String
  sampleValues : List String
  nullCount : Nat
  uniqueCount : Nat
  minValue : Option String
  maxValue : Option String
  hasDuplicates : Bool
deriving DecidableEq, Repr

def SAMPLE_SIZE : Nat := 3

/-- `ExcelAnalyzer::analyze_column` (analyzer.rs lines 153–203): statistics
fold over `values`, first-`SAMPLE_SIZE` raw renderings, and the duplicate
flag `unique_count < values.len() - null_count`. -/
def analyzeColumn (values : List XData) (name : String) : ColumnInfo :=
  let st := foldStats values
  { name := name
    dataType := detectColumnType values
    sampleValues := (values.take SAMPLE_SIZE).map (fun v =>
      match v with
      | .empty => ""
      | _ => v.toStr)
    nullCount := st.1
    uniqueCount := st.2.1.card
    minValue := st.2.2.1
    maxValue := st.2.2.2
    hasDuplicates := decide (st.2.1.card < values.length - st.1) }

/-- The per-column value extraction of `ExcelAnalyzer::analyze_from_bytes`
(analyzer.rs lines 74–79): skip the header row, take at most
`TYPE_DETECTION_ROWS` rows, and project cell `idx` of each row that has one.
The SAME list is passed both to `detect_column_type` and to
`analyze_column`. -/
def columnValues (rows : List (List XData)) (idx : Nat) : List XData :=
  ((rows.drop 1).take TYPE_DETECTION_ROWS).filterMap (fun r => r.get? idx)

/-- The full taken row window of `analyze_from_bytes` (header + at most 999
data rows are read into `rows`); its projection on column `idx`. -/
def fullWindowValues (rows : List (List XData)) (idx : Nat) : List XData :=
  (rows.drop 1).filterMap (fun r => r.get? idx)

/-! ## `clean_column_name` (utils.rs lines 8–30)

Characters that are not alphanumeric and not `_` become `_`; the result is
lowercased; a name not starting with an alphabetic character gets the
`col_` marker prepended; collisions with the shared seen-name set are
resolved by appending `_1`, `_2`, … until insertion succeeds.

Rust's `char::is_alphanumeric`, `char::is_alphabetic` and
`str::to_lowercase` are Unicode-aware: non-ASCII letters such as `é` and
`İ` are alphabetic and are KEPT by the sanitizer, and full lowercasing maps
one character to possibly several — `'İ'` (U+0130) lowercases to `"i"` plus
the combining dot above U+0307, a character that is NOT alphanumeric.  The
model below carries the Unicode tables exactly on the ASCII range plus the
non-ASCII characters this development's statements evaluate (`é`, `İ`,
U+0307); on all remaining characters `rustIsAlphabetic` returns false and
`rustToLowerChar` is the identity, and no theorem below depends on those
characters.  The numeric suffix rendering `format!("{}_{}", orig, counter)`
is embedded through an explicit base-10 renderer `decString`. -/

/-- `char::is_alphabetic` on the modelled fragment: the ASCII letters plus
the non-ASCII alphabetic characters evaluated in this development
(`é` U+00E9 and `İ` U+0130; the combining mark U+0307 is correctly not
alphabetic). -/
def rustIsAlphabetic (c : Char) : Bool :=
  c.isAlpha || c == 'é' || c == 'İ'

/-- `char::is_alphanumeric` on the modelled fragment: alphabetic or a
decimal digit. -/
def rustIsAlphanumeric (c : Char) : Bool :=
  rustIsAlphabetic c || c.isDigit

def sanitizeChar (c : Char) : Char :=
  if rustIsAlphanumeric c || c = '_' then c else '_'

/-- The single-character ASCII lowercase map. -/
def asciiToLower (c : Char) : Char :=
  match c with
  | 'A' => 'a' | 'B' => 'b' | 'C' => 'c' | 'D' => 'd' | 'E' => 'e'
  | 'F' => 'f' | 'G' => 'g' | 'H' => 'h' | 'I' => 'i' | 'J' => 'j'
  | 'K' => 'k' | 'L' => 'l' | 'M' => 'm' | 'N' => 'n' | 'O' => 'o'
  | 'P' => 'p' | 'Q' => 'q' | 'R' => 'r' | 'S' => 's' | 'T' => 't'
  | 'U' => 'u' | 'V' => 'v' | 'W' => 'w' | 'X' => 'x' | 'Y' => 'y'
  | 'Z' => 'z' | c => c

/-- One character's contribution to `str::to_lowercase`: a full (possibly
expanding) Unicode lowercase mapping.  `'İ'` expands to `i` followed by the
combining dot above U+0307; ASCII uppercase maps to lowercase; the other
modelled characters (`é`, U+0307, every char without a mapping in the
fragment) are unchanged. -/
def rustToLowerChar (c : Char) : List Char :=
  if c == 'İ' then ['i', '\u0307'] else [asciiToLower c]

/-- `name.chars().map(sanitize).collect::<String>().to_lowercase()`. -/
def sanitizeName (name : String) : String :=
  ⟨(name.data.map sanitizeChar).flatMap rustToLowerChar⟩

/-- Prepend `col_` when the sanitized name is empty or does not start with
an alphabetic character. -/
def baseOrPrefixed (base : String) : String :=
  match base.data.head? with
  | some c => if rustIsAlphabetic c then base else "col_" ++ base
  | none => "col_" ++ base

/-- Base-10 rendering of a natural number, most significant digit first. -/
def decDigits (n : Nat) : List Char :=
  if _h : n < 10 then [Nat.digitChar n]
  else decDigits (n / 10) ++ [Nat.digitChar (n % 10)]
decreasing_by exact Nat.div_lt_self (by omega) (by omega)

def decString (n : Nat) : String := ⟨decDigits n⟩

/-- The candidate `format!("{}_{}", original_name, counter)`. -/
def candName (orig : String) (k : Nat) : String :=
  orig ++ "_" ++ decString k

theorem digitsVal_decDigits (n : Nat) : digitsVal (decDigits n) = n := by
  induction n using Nat.strong_induction_on with
  | _ n ih =>
    rw [decDigits]
    split
    · show digitsVal [Nat.digitChar n] = n
      interval_cases n <;> decide
    · have hlt : n / 10 < n := Nat.div_lt_self (by omega) (by omega)
      have hmod : n % 10 < 10 := Nat.mod_lt _ (by omega)
      have hdig : (Nat.digitChar (n % 10)).toNat - 48 = n % 10 := by
        interval_cases h10 : n % 10 <;> simp_all <;> decide
      have happ : digitsVal (decDigits (n / 10) ++ [Nat.digitChar (n % 10)]) =
          digitsVal (decDigits (n / 10)) * 10 + ((Nat.digitChar (n % 10)).toNat - 48) := by
        simp [digitsVal, List.foldl_append]
      rw [happ, ih _ hlt, hdig]
      omega

theorem decString_injective : Function.Injective decString := by
  intro a b h
  have : digitsVal (decDigits a) = digitsVal (decDigits b) := by
    have hd : decDigits a = decDigits b := congrArg String.data h
    rw [hd]
  rwa [digitsVal_decDigits, digitsVal_decDigits] at this

theorem candName_injective (orig : String) : Function.Injective (candName orig) := by
  intro a b h
  apply decString_injective
  have hd : (orig ++ "_" ++ decString a).data = (orig ++ "_" ++ decString b).data :=
    congrArg String.data h
  simp only [String.data_append] at hd
  have := List.append_cancel_left hd
  exact congrArg String.mk (by simpa using this)

theorem exists_cand_notMem (orig : String) (seen : Finset String) :
    ∃ k, candName orig (k + 1) ∉ seen := by
  by_contra hall
  push_neg at hall
  have hinj : Set.InjOn (fun k => candName orig (k + 1)) (Finset.range (seen.card + 1)) := by
    intro a _ b _ hab
    have := candName_injective orig hab
    omega
  have hmaps : ∀ a ∈ Finset.range (seen.card + 1), candName orig (a + 1) ∈ seen :=
    fun a _ => hall a
  have := Finset.card_le_card_of_injOn _ hmaps hinj
  simp [Finset.card_range] at this

/-- The collision-resolution loop: try `orig`, then `orig_1`, `orig_2`, …,
returning the first candidate not already in the seen set. -/
def freshName (orig : String) (seen : Finset String) : String :=
  if orig ∈ seen then
    candName orig (Nat.find (exists_cand_notMem orig seen) + 1)
  else orig

/-- `clean_column_name`: returns the chosen name and the updated seen set
(the Rust code inserts the returned name into `existing_names`). -/
def cleanColumnName (name : String) (seen : Finset String) :
    String × Finset String :=
  let cleaned := baseOrPrefixed (sanitizeName name)
  let res := freshName cleaned seen
  (res, insert res seen)

/-- Header processing of `analyze_from_bytes` / `process_file`: apply
`clean_column_name` to each raw header in order, threading one shared seen
set. -/
def cleanColumnNames : List String → Finset String → List String
  | [], _ => []
  | n :: ns, seen =>
      let r := cleanColumnName n seen
      r.1 :: cleanColumnNames ns r.2

/-! ## `ExcelProcessor::clean_dataframe` (processor.rs lines 100–123)

A polars `DataFrame` is modelled row-wise: a list of column names and a list
of rows, each row one cell per column; a cell is `none` (null) or a value
(carried as its rendering — nullity is all the cleaning code inspects).
`df.drop_nulls::<String>(None)` keeps exactly the rows in which every cell
is non-null (polars drops a row as soon as ANY subset column is null, and
the `None` subset means all columns).  The column pass keeps the columns
that are non-empty and not entirely null; `select` is modelled positionally
(the Rust code selects by name; header names are unique per sheet).  Both
polars calls have `unwrap_or_else(|_| df.clone())` fallbacks; neither
operation fails in the modelled situations. -/

structure MDataFrame where
  names : List String
  rows : List (List (Option String))
deriving DecidableEq, Repr

/-- `df.drop_nulls::<String>(None)`. -/
def dropNullRows (df : MDataFrame) : MDataFrame :=
  { df with rows := df.rows.filter (fun r => r.all Option.isSome) }

/-- `series.is_null().all()` for column `j`. -/
def colAllNull (df : MDataFrame) (j : Nat) : Bool :=
  df.rows.all (fun r => (r.getD j none).isNone)

/-- `series.is_empty()` (a series of the frame has `height` elements). -/
def colIsEmpty (df : MDataFrame) : Bool :=
  df.rows.isEmpty

/-- The kept column indices of the `select`:
`!series.is_empty() && !series.is_null().all()`. -/
def keptCols (df : MDataFrame) : List Nat :=
  (List.range df.names.length).filter
    (fun j => !colIsEmpty df && !colAllNull df j)

/-- The `select` of the kept columns (modelled positionally; the Rust code
selects the kept columns by name, and header names are unique per sheet). -/
def selectNonNullCols (df : MDataFrame) : MDataFrame :=
  { names := (keptCols df).map (fun j => df.names.getD j "")
    rows := df.rows.map (fun r => (keptCols df).map (fun j => r.getD j none)) }

/-- `ExcelProcessor::clean_dataframe`. -/
def cleanDataframe (df : MDataFrame) : Option MDataFrame :=
  if df.rows.isEmpty || df.names.isEmpty then none
  else
    if (selectNonNullCols (dropNullRows df)).rows.isEmpty ||
        (selectNonNullCols (dropNullRows df)).names.isEmpty then none
    else some (selectNonNullCols (dropNullRows df))

/-- The row pass as claim C4 states it: remove exactly the rows whose cells
are ALL null. -/
def dropAllNullRows (df : MDataFrame) : MDataFrame :=
  { df with rows := df.rows.filter (fun r => r.any Option.isSome) }

/-- The cleaning pass as claim C4 states it: remove exactly the rows whose
cells are ALL null, then the columns that are entirely null, and yield
`none` if either pass leaves zero rows or zero columns. -/
def cleanDataframeClaimed (df : MDataFrame) : Option MDataFrame :=
  if df.rows.isEmpty || df.names.isEmpty then none
  else
    if (selectNonNullCols (dropAllNullRows df)).rows.isEmpty ||
        (selectNonNullCols (dropAllNullRows df)).names.isEmpty then none
    else some (selectNonNullCols (dropAllNullRows df))

/-! ## `ExcelProcessor::detect_date_columns` / `normalize_date_columns`
(processor.rs lines 171–206)

A column is modelled by its name, its string view after
`series.cast(&DataType::String)` (`none` for null entries), and its current
"is a datetime column" flag.  `detect_date_columns` looks ONLY at
`ca.get(0)` — the first value of the cast column — and keeps the column name
when that value exists, is non-null and satisfies `is_date_string`.
`normalize_date_columns` recasts the listed columns to
`Datetime(Microseconds, None)`, modelled by setting the flag (polars casts a
string column to datetime non-strictly, so the cast step itself does not
fail on unparseable entries). -/

structure PColumn where
  name : String
  cells : List (Option String)
  isDatetime : Bool
deriving DecidableEq, Repr

/-- The per-column body of `detect_date_columns`: keep the column name when
the first value of the string-cast column exists, is non-null and satisfies
`is_date_string`. -/
def dateColArm (c : PColumn) : Option String :=
  match c.cells.head? with
  | some (some v) => if isDateString v then some c.name else none
  | _ => none

def detectDateColumns (df : List PColumn) : List String :=
  df.filterMap dateColArm

def normalizeDateColumns (df : List PColumn) (dateCols : List String) :
    List PColumn :=
  df.map (fun c => if c.name ∈ dateCols then { c with isDatetime := true } else c)

/-- The detection rule as claim C9 states it: a column qualifies when at
least 80% of a 100-row sample of its values are date-pattern-matching
strings. -/
def detectDateColumnsClaimed (df : List PColumn) : List String :=
  df.filterMap (fun c =>
    let sample : List (Option String) := c.cells.take 100
    let dcount : Nat := sample.countP (fun cell =>
      match cell with
      | some v => isDateString v
      | none => false)
    if decide (0 < sample.length) && decide (5 * dcount ≥ 4 * sample.length) then
      some c.name
    else none)

/-! ## `DbLoader::load_dataframe` / `DbLoader::has_data`
(db_loader.rs lines 29–141 and 292–302)

The loader holds an SQLite connection plus `current_table : Option<String>`
and `column_names : Vec<String>`.  `load_dataframe`:

  1. captures the frame's column names;
  2. `DROP TABLE IF EXISTS {name}` — on error, return;
  3. `CREATE TABLE IF NOT EXISTS {name} (…)` — on error, return;
  4. prepares the `INSERT` statement — on error, return;
  5. executes the insert once per row, in order, each in autocommit mode
     (there is NO `BEGIN`/`COMMIT`/transaction anywhere in the function) —
     on the first failing row, return, leaving the already inserted rows;
  6. runs `SELECT COUNT(*)` to verify — on error, return;
  7. only now assigns `current_table := Some(name)` and
     `column_names := captured names`, and returns `Ok`.

The store is modelled as an association list from table name to list of
rows; a row is one SQL value per column, a value being null or a rendering
(the `AnyValue → ToSqlOutput` conversion preserves the value).  Each
fallible SQLite call is driven by a failure oracle: the model covers every
error interleaving the sequential code can encounter.  No lock failures are
modelled (a poisoned mutex only arises after a panic). -/

abbrev MRow : Type := List (Option String)
abbrev Tables : Type := List (String × List MRow)

structure MFrame where
  columnNames : List String
  rows : List MRow
deriving DecidableEq, Repr

structure DbState where
  tables : Tables
  currentTable : Option String
  columnNames : List String
deriving DecidableEq, Repr

/-- Which of the fallible SQLite calls of one `load_dataframe` call fail. -/
structure Oracle where
  dropFails : Bool
  createFails : Bool
  prepareFails : Bool
  insertFailsAt : Option Nat
  verifyFails : Bool
deriving DecidableEq, Repr

/-- `DROP TABLE IF EXISTS name`. -/
def dropTable (ts : Tables) (name : String) : Tables :=
  ts.filter (fun e => e.1 ≠ name)

/-- One `stmt.execute(params)`: append the row to the named table. -/
def appendRow (ts : Tables) (name : String) (row : MRow) : Tables :=
  ts.map (fun e => if e.1 = name then (e.1, e.2 ++ [row]) else e)

/-- The row insertion loop (db_loader.rs lines 75–112): insert each row in
order; the oracle names the first row index whose `stmt.execute` fails. -/
def insertRows (ts : Tables) (name : String) (rows : List MRow) (idx : Nat)
    (failAt : Option Nat) : Tables × Bool :=
  match rows with
  | [] => (ts, true)
  | r :: rs =>
      if failAt = some idx then (ts, false)
      else insertRows (appendRow ts name r) name rs (idx + 1) failAt

/-- `DbLoader::load_dataframe`; returns the new loader state and whether the
call returned `Ok`. -/
def loadDataframe (st : DbState) (frame : MFrame) (name : String) (o : Oracle) :
    DbState × Bool :=
  let colNames := frame.columnNames
  if o.dropFails then (st, false)
  else
    let t1 := dropTable st.tables name
    if o.createFails then ({ st with tables := t1 }, false)
    else
      let t2 := (name, ([] : List MRow)) :: t1
      if o.prepareFails then ({ st with tables := t2 }, false)
      else
        match insertRows t2 name frame.rows 0 o.insertFailsAt with
        | (t3, false) => ({ st with tables := t3 }, false)
        | (t3, true) =>
            if o.verifyFails then ({ st with tables := t3 }, false)
            else
              ({ tables := t3, currentTable := some name,
                 columnNames := colNames }, true)

/-- `DbLoader::has_data` (db_loader.rs lines 292–302). -/
def hasData (st : DbState) : Bool :=
  st.currentTable.isSome && !st.columnNames.isEmpty

/-! ## Concrete instances used by the claim theorems -/

/-- A type-inference sample whose non-empty cells are 80% numeric. -/
def sample80 : List XData :=
  List.replicate 80 (XData.int 1) ++ List.replicate 20 (XData.string "x")

/-- A type-inference sample whose non-empty cells are 79% numeric. -/
def sample79 : List XData :=
  List.replicate 79 (XData.int 1) ++ List.replicate 21 (XData.string "x")

/-- One data row with a non-null first cell and a null second cell. -/
def demoDf4 : MDataFrame :=
  { names := ["a", "b"], rows := [[some "x", none]] }

/-- A header row followed by 100 non-empty and then 50 empty data rows. -/
def demoRows8 : List (List XData) :=
  [XData.string "h"] ::
    (List.replicate 100 [XData.string "v"] ++ List.replicate 50 [XData.empty])

/-- A column whose first value is a date-pattern string and whose remaining
four values are not. -/
def demoDf9 : List PColumn :=
  [{ name := "d"
     cells := [some "2024-01-15 10:30:00", some "x", some "y", some "z", some "w"]
     isDatetime := false }]

/-- A fresh loader state: empty store, no metadata. -/
def stFresh : DbState := { tables := [], currentTable := none, columnNames := [] }

/-- A loader state holding a previously loaded two-row table `t`. -/
def stPrev : DbState :=
  { tables := [("t", [[some "o1"], [some "o2"]])]
    currentTable := some "t"
    columnNames := ["a"] }

/-- A one-column, two-row frame. -/
def frameDemo : MFrame :=
  { columnNames := ["a"], rows := [[some "x"], [some "y"]] }

/-- An oracle failing the insert of row index 0. -/
def oracleInsert0 : Oracle :=
  { dropFails := false, createFails := false, prepareFails := false
    insertFailsAt := some 0, verifyFails := false }

/-- An oracle failing the insert of row index 1. -/
def oracleInsert1 : Oracle :=
  { dropFails := false, createFails := false, prepareFails := false
    insertFailsAt := some 1, verifyFails := false }

/-! ## Lemmas about the statistics merge (claim C5) -/

theorem ite_lt_eq_min (a b : String) : (if a < b then a else b) = min a b := by
  split_ifs with h
  · exact (min_eq_left h.le).symm
  · exact (min_eq_right (not_lt.mp h)).symm

theorem ite_lt_eq_max (a b : String) : (if b < a then a else b) = max a b := by
  split_ifs with h
  · exact (max_eq_left h.le).symm
  · exact (max_eq_right (not_lt.mp h)).symm

theorem mergeMinMax_comm (a b : Option String × Option String) :
    mergeMinMax a b = mergeMinMax b a := by
  obtain ⟨a1, a2⟩ := a
  obtain ⟨b1, b2⟩ := b
  unfold mergeMinMax
  cases a1 <;> cases b1 <;> cases a2 <;> cases b2 <;>
    simp only [ite_lt_eq_min, ite_lt_eq_max] <;> simp [min_comm, max_comm]

theorem mergeMinMax_assoc (a b c : Option String × Option String) :
    mergeMinMax (mergeMinMax a b) c = mergeMinMax a (mergeMinMax b c) := by
  obtain ⟨a1, a2⟩ := a
  obtain ⟨b1, b2⟩ := b
  obtain ⟨c1, c2⟩ := c
  unfold mergeMinMax
  cases a1 <;> cases b1 <;> cases c1 <;> cases a2 <;> cases b2 <;> cases c2 <;>
    simp only [ite_lt_eq_min, ite_lt_eq_max] <;> simp [min_assoc, max_assoc]

theorem mergeMinMax_none_right (a : Option String × Option String) :
    mergeMinMax a (none, none) = a := by
  obtain ⟨a1, a2⟩ := a
  unfold mergeMinMax
  cases a1 <;> cases a2 <;> simp

theorem mergeMinMax_none_left (a : Option String × Option String) :
    mergeMinMax (none, none) a = a := by
  rw [mergeMinMax_comm]
  exact mergeMinMax_none_right a

theorem if_lt_some_min (m s : String) :
    (if s < m then (some s : Option String) else some m) = some (min m s) := by
  split_ifs with h
  · exact congrArg some (min_eq_right h.le).symm
  · exact congrArg some (min_eq_left (not_lt.mp h)).symm

theorem if_lt_some_max (m s : String) :
    (if m < s then (some s : Option String) else some m) = some (max m s) := by
  split_ifs with h
  · exact congrArg some (max_eq_right h.le).symm
  · exact congrArg some (max_eq_left (not_lt.mp h)).symm

theorem statsMerge_assoc (a b c : ColStats) :
    statsMerge (statsMerge a b) c = statsMerge a (statsMerge b c) := by
  unfold statsMerge
  simp [Nat.add_assoc, Finset.union_assoc, mergeMinMax_assoc]

theorem statsMerge_comm (a b : ColStats) : statsMerge a b = statsMerge b a := by
  unfold statsMerge
  simp [Nat.add_comm, Finset.union_comm, mergeMinMax_comm]

theorem statsMerge_init_right (a : ColStats) : statsMerge a statsInit = a := by
  unfold statsMerge statsInit
  simp [mergeMinMax_none_right]

theorem statsMerge_init_left (a : ColStats) : statsMerge statsInit a = a := by
  rw [statsMerge_comm]
  exact statsMerge_init_right a

theorem updateMinMax_eq_merge (mm : Option String × Option String) (s : String) :
    updateMinMax mm s = mergeMinMax mm (some s, some s) := by
  obtain ⟨lo, hi⟩ := mm
  cases lo <;> cases hi <;>
    simp only [updateMinMax, mergeMinMax, if_lt_some_min, if_lt_some_max,
      ite_lt_eq_min, ite_lt_eq_max]

theorem statsStep_eq_merge (st : ColStats) (v : XData) :
    statsStep st v = statsMerge st (statsStep statsInit v) := by
  unfold statsStep statsMerge statsInit
  cases v <;>
    simp [XData.isEmptyCell, updateMinMax_eq_merge, mergeMinMax_none_right,
      mergeMinMax_none_left, Finset.union_comm, Finset.insert_eq]

theorem foldl_statsStep_eq (l : List XData) :
    ∀ st : ColStats, l.foldl statsStep st = statsMerge st (foldStats l) := by
  induction l with
  | nil => intro st; simp [foldStats, statsMerge_init_right]
  | cons v l ih =>
    intro st
    have h1 : foldStats (v :: l) = statsMerge (statsStep statsInit v) (foldStats l) := by
      show (v :: l).foldl statsStep statsInit = _
      rw [List.foldl_cons, ih (statsStep statsInit v)]
    rw [List.foldl_cons, ih (statsStep st v), h1, statsStep_eq_merge st v,
      statsMerge_assoc]

theorem foldStats_append (l1 l2 : List XData) :
    foldStats (l1 ++ l2) = statsMerge (foldStats l1) (foldStats l2) := by
  show (l1 ++ l2).foldl statsStep statsInit = _
  rw [List.foldl_append]
  exact foldl_statsStep_eq l2 (foldStats l1)

theorem foldl_statsMerge_chunks (chunks : List (List XData)) :
    ∀ st : ColStats,
      (chunks.map foldStats).foldl statsMerge st = statsMerge st (foldStats chunks.flatten) := by
  induction chunks with
  | nil => intro st; simp [foldStats, statsMerge_init_right]
  | cons c cs ih =>
    intro st
    rw [List.map_cons, List.foldl_cons, ih (statsMerge st (foldStats c)),
      List.flatten_cons, foldStats_append, ← statsMerge_assoc]

/-! ## Lemmas about `clean_column_name` (claim C7) -/

/-- Identifier validity as claim C7 states it, read with the program's own
(Unicode) character classes: only alphanumeric or underscore characters,
and the name starts with an alphabetic character — which subsumes both of
the claim's alternatives, since the `col_` marker itself starts with the
letter `c`. -/
def validIdent (s : String) : Prop :=
  (∀ c ∈ s.data, rustIsAlphanumeric c = true ∨ c = '_') ∧
  (s.data.head?.map rustIsAlphabetic).getD false = true

theorem asciiToLower_isAlphanum (c : Char) (h : c.isAlphanum = true) :
    (asciiToLower c).isAlphanum = true := by
  unfold asciiToLower
  split <;> first | decide | exact h

theorem rustIsAlphanumeric_of_isAlphanum (c : Char) (h : c.isAlphanum = true) :
    rustIsAlphanumeric c = true := by
  unfold rustIsAlphanumeric rustIsAlphabetic
  unfold Char.isAlphanum at h
  rcases Bool.or_eq_true_iff.mp h with h1 | h1 <;> simp [h1]

theorem ascii_ne_dotted (c : Char) (h : c.toNat < 128) : (c == 'İ') = false := by
  rw [beq_eq_false_iff_ne]
  intro he
  subst he
  exact absurd h (by decide)

theorem rustToLowerChar_ascii (c : Char) (h : c.toNat < 128) :
    rustToLowerChar c = [asciiToLower c] := by
  unfold rustToLowerChar
  rw [ascii_ne_dotted c h]
  rfl

theorem rustIsAlphanumeric_ascii (c : Char) (h : c.toNat < 128)
    (halnum : rustIsAlphanumeric c = true) : c.isAlphanum = true := by
  unfold rustIsAlphanumeric rustIsAlphabetic at halnum
  have h1 : (c == 'é') = false := by
    rw [beq_eq_false_iff_ne]
    intro he
    subst he
    exact absurd h (by decide)
  have h2 : (c == 'İ') = false := ascii_ne_dotted c h
  rw [h1, h2] at halnum
  simp only [Bool.or_false] at halnum
  unfold Char.isAlphanum
  exact halnum

theorem sanitizeChar_toNat_lt (c : Char) (h : c.toNat < 128) :
    (sanitizeChar c).toNat < 128 := by
  unfold sanitizeChar
  split_ifs
  · exact h
  · decide

theorem sanitizeName_chars_ascii (name : String)
    (hA : ∀ c ∈ name.data, c.toNat < 128) :
    ∀ d ∈ (sanitizeName name).data, rustIsAlphanumeric d = true ∨ d = '_' := by
  intro d hd
  unfold sanitizeName at hd
  rw [List.mem_flatMap] at hd
  obtain ⟨e, he, hdL⟩ := hd
  obtain ⟨c0, hc0, rfl⟩ := List.mem_map.mp he
  have hc0A : c0.toNat < 128 := hA c0 hc0
  rw [rustToLowerChar_ascii _ (sanitizeChar_toNat_lt c0 hc0A),
    List.mem_singleton] at hdL
  subst hdL
  unfold sanitizeChar
  split_ifs with hkeep
  · rcases Bool.or_eq_true_iff.mp hkeep with h1 | h1
    · left
      have halnum := rustIsAlphanumeric_ascii c0 hc0A h1
      exact rustIsAlphanumeric_of_isAlphanum _ (asciiToLower_isAlphanum _ halnum)
    · right
      rw [of_decide_eq_true h1]
      decide
  · right
    decide

theorem col_marker_chars (c : Char) (hc : c ∈ ("col_" : String).data) :
    rustIsAlphanumeric c = true ∨ c = '_' := by
  fin_cases hc <;> decide

theorem baseOrPrefixed_chars (base : String)
    (hb : ∀ c ∈ base.data, rustIsAlphanumeric c = true ∨ c = '_') :
    ∀ c ∈ (baseOrPrefixed base).data, rustIsAlphanumeric c = true ∨ c = '_' := by
  unfold baseOrPrefixed
  intro c hc
  split at hc
  · split at hc
    · exact hb c hc
    · rw [String.data_append] at hc
      rcases List.mem_append.mp hc with h | h
      · exact col_marker_chars c h
      · exact hb c h
  · rw [String.data_append] at hc
    rcases List.mem_append.mp hc with h | h
    · exact col_marker_chars c h
    · exact hb c h

theorem baseOrPrefixed_head (base : String) :
    ∃ c, (baseOrPrefixed base).data.head? = some c ∧ rustIsAlphabetic c = true := by
  unfold baseOrPrefixed
  split
  · rename_i c0 heq
    split
    · rename_i hA
      exact ⟨c0, heq, hA⟩
    · refine ⟨'c', ?_, by decide⟩
      rw [String.data_append]
      rfl
  · refine ⟨'c', ?_, by decide⟩
    rw [String.data_append]
    rfl

theorem validIdent_baseOrPrefixed_ascii (name : String)
    (hA : ∀ c ∈ name.data, c.toNat < 128) :
    validIdent (baseOrPrefixed (sanitizeName name)) := by
  refine ⟨baseOrPrefixed_chars _ (sanitizeName_chars_ascii name hA), ?_⟩
  obtain ⟨c, heq, halpha⟩ := baseOrPrefixed_head (sanitizeName name)
  rw [heq]
  simp [halpha]

theorem decDigits_isDigit (n : Nat) : ∀ c ∈ decDigits n, c.isDigit = true := by
  induction n using Nat.strong_induction_on with
  | _ n ih =>
    rw [decDigits]
    split
    · intro c hc
      rw [List.mem_singleton] at hc
      subst hc
      rename_i h
      interval_cases n <;> decide
    · intro c hc
      rcases List.mem_append.mp hc with h | h
      · exact ih _ (Nat.div_lt_self (by omega) (by omega)) c h
      · rw [List.mem_singleton] at h
        subst h
        have : n % 10 < 10 := Nat.mod_lt _ (by omega)
        interval_cases hm : n % 10 <;> simp_all <;> decide

theorem validIdent_candName (orig : String) (k : Nat) (h : validIdent orig) :
    validIdent (candName orig k) := by
  obtain ⟨hchars, hhead⟩ := h
  constructor
  · intro c hc
    unfold candName at hc
    rw [String.data_append, String.data_append] at hc
    rcases List.mem_append.mp hc with hl | hr
    · rcases List.mem_append.mp hl with h1 | h2
      · exact hchars c h1
      · right
        simpa using h2
    · left
      have hd : c.isDigit = true := decDigits_isDigit k c hr
      unfold rustIsAlphanumeric
      simp [hd]
  · unfold candName
    rw [String.data_append, String.data_append]
    rcases hdata : orig.data with _ | ⟨c1, t⟩
    · rw [hdata] at hhead
      simp at hhead
    · rw [hdata] at hhead
      simp only [List.head?_cons, Option.map_some, Option.getD_some] at hhead
      simpa using hhead

theorem freshName_notMem (orig : String) (seen : Finset String) :
    freshName orig seen ∉ seen := by
  unfold freshName
  split_ifs with h
  · exact Nat.find_spec (exists_cand_notMem orig seen)
  · exact h

theorem validIdent_freshName (orig : String) (seen : Finset String)
    (h : validIdent orig) : validIdent (freshName orig seen) := by
  unfold freshName
  split_ifs
  · exact validIdent_candName orig _ h
  · exact h

theorem cleanColumnName_fst_valid (name : String) (seen : Finset String)
    (hA : ∀ c ∈ name.data, c.toNat < 128) :
    validIdent (cleanColumnName name seen).1 :=
  validIdent_freshName _ _ (validIdent_baseOrPrefixed_ascii name hA)

theorem cleanColumnName_fst_notMem (name : String) (seen : Finset String) :
    (cleanColumnName name seen).1 ∉ seen :=
  freshName_notMem _ _

theorem cleanColumnName_snd (name : String) (seen : Finset String) :
    (cleanColumnName name seen).2 = insert (cleanColumnName name seen).1 seen :=
  rfl

theorem cleanColumnNames_length (names : List String) :
    ∀ seen, (cleanColumnNames names seen).length = names.length := by
  induction names with
  | nil => intro seen; rfl
  | cons n ns ih =>
    intro seen
    show ((cleanColumnName n seen).1 :: cleanColumnNames ns _).length = _
    rw [List.length_cons, ih]
    rfl

theorem cleanColumnNames_notMem (names : List String) :
    ∀ seen x, x ∈ cleanColumnNames names seen → x ∉ seen := by
  induction names with
  | nil => intro seen x hx; simp [cleanColumnNames] at hx
  | cons n ns ih =>
    intro seen x hx
    rcases List.mem_cons.mp hx with h | h
    · rw [h]
      exact cleanColumnName_fst_notMem n seen
    · intro hmem
      exact ih _ x h (Finset.mem_insert_of_mem hmem)

theorem cleanColumnNames_nodup (names : List String) :
    ∀ seen, (cleanColumnNames names seen).Nodup := by
  induction names with
  | nil => intro seen; exact List.nodup_nil
  | cons n ns ih =>
    intro seen
    refine List.Nodup.cons ?_ (ih _)
    intro hmem
    exact cleanColumnNames_notMem ns _ _ hmem (Finset.mem_insert_self _ _)

theorem cleanColumnNames_valid_ascii (names : List String) :
    ∀ seen, (∀ name ∈ names, ∀ c ∈ name.data, c.toNat < 128) →
      ∀ x ∈ cleanColumnNames names seen, validIdent x := by
  induction names with
  | nil => intro seen _ x hx; simp [cleanColumnNames] at hx
  | cons n ns ih =>
    intro seen hA x hx
    rcases List.mem_cons.mp hx with h | h
    · rw [h]
      exact cleanColumnName_fst_valid n seen (hA n (List.mem_cons_self _ _))
    · exact ih _ (fun m hm => hA m (List.mem_cons_of_mem _ hm)) x h

/-! ## Lemmas about `detect_column_type` (claim C3) -/

def isNumericCell : XData → Bool
  | .int _ => true
  | .float _ => true
  | _ => false

def isDateCell : XData → Bool
  | .dateTime _ => true
  | .string s => isDateString s
  | _ => false

def isBoolCell : XData → Bool
  | .bool _ => true
  | _ => false

theorem foldl_detectStep (l : List XData) :
    ∀ a : Nat × Nat × Nat × Nat,
      l.foldl detectStep a =
        (a.1 + l.countP (fun v => isNumericCell v),
         a.2.1 + l.countP (fun v => isDateCell v),
         a.2.2.1 + l.countP (fun v => isBoolCell v),
         a.2.2.2 + l.countP (fun v => v.isEmptyCell)) := by
  induction l with
  | nil => intro a; simp
  | cons v l ih =>
    intro a
    rw [List.foldl_cons, ih]
    cases v <;>
      simp [detectStep, isNumericCell, isDateCell, isBoolCell, XData.isEmptyCell,
        List.countP_cons, Nat.add_comm, Nat.add_assoc, Nat.add_left_comm]
    rename_i s
    by_cases hs : isDateString s <;>
      simp [hs, Nat.add_comm, Nat.add_assoc, Nat.add_left_comm]

theorem countP_empty_of_filtered (values : List XData) :
    ((values.take TYPE_DETECTION_ROWS).filter
        (fun v => !v.isEmptyCell)).countP (fun v => v.isEmptyCell) = 0 := by
  rw [List.countP_eq_zero]
  intro v hv
  have := (List.mem_filter.mp hv).2
  simp only [Bool.not_eq_true'] at this
  simp [this]

/-- What `detect_column_type` actually computes: `total` is the FULL length
of `values` (the `empty_count` of the fold is always zero because empties
are filtered out before the fold), and the counts range over the non-empty
cells among the first `TYPE_DETECTION_ROWS` values. -/
theorem detectColumnType_eq (values : List XData) :
    detectColumnType values =
      (let sample := (values.take TYPE_DETECTION_ROWS).filter (fun v => !v.isEmptyCell)
       let total := values.length
       if total = 0 then "empty"
       else if 5 * sample.countP (fun v => isNumericCell v) ≥ 4 * total then "numeric"
       else if 5 * sample.countP (fun v => isDateCell v) ≥ 4 * total then "date"
       else if 5 * sample.countP (fun v => isBoolCell v) ≥ 4 * total then "boolean"
       else "string") := by
  unfold detectColumnType detectCounts
  rw [foldl_detectStep]
  simp [countP_empty_of_filtered]

/-! ## Lemmas about the chrono parsing model (claim C6) -/

theorem runItems_hour_of_not_mem (items : List FmtItem)
    (hh : FmtItem.hour ∉ items) :
    ∀ cs p q, runItems items cs p = some q → q.hour = p.hour := by
  induction items with
  | nil =>
    intro cs p q h
    cases cs with
    | nil =>
      have : p = q := by simpa [runItems] using h
      rw [← this]
    | cons c cs => simp [runItems] at h
  | cons it its ih =>
    have hits : FmtItem.hour ∉ its := fun hm => hh (List.mem_cons_of_mem _ hm)
    intro cs p q h
    cases it with
    | lit c =>
      cases cs with
      | nil => simp [runItems] at h
      | cons c0 cs0 =>
        by_cases hc : c0 = c
        · simp only [runItems, hc, if_pos rfl] at h
          exact ih hits _ _ _ h
        · simp [runItems, hc] at h
    | hour => exact absurd (List.mem_cons_self _ _) hh
    | year =>
      simp only [runItems] at h
      by_cases hds : (takeDigits (itemWidth .year) cs).1.isEmpty
      · simp [hds] at h
      · rw [if_neg hds] at h
        rw [ih hits _ _ _ h]
        simp [setField]
    | month =>
      simp only [runItems] at h
      by_cases hds : (takeDigits (itemWidth .month) cs).1.isEmpty
      · simp [hds] at h
      · rw [if_neg hds] at h
        rw [ih hits _ _ _ h]
        simp [setField]
    | day =>
      simp only [runItems] at h
      by_cases hds : (takeDigits (itemWidth .day) cs).1.isEmpty
      · simp [hds] at h
      · rw [if_neg hds] at h
        rw [ih hits _ _ _ h]
        simp [setField]
    | minute =>
      simp only [runItems] at h
      by_cases hds : (takeDigits (itemWidth .minute) cs).1.isEmpty
      · simp [hds] at h
      · rw [if_neg hds] at h
        rw [ih hits _ _ _ h]
        simp [setField]
    | second =>
      simp only [runItems] at h
      by_cases hds : (takeDigits (itemWidth .second) cs).1.isEmpty
      · simp [hds] at h
      · rw [if_neg hds] at h
        rw [ih hits _ _ _ h]
        simp [setField]

/-! ## Lemmas about `clean_dataframe` (claim C4) -/

theorem map_getD_range {α : Type} (l : List α) (d : α) :
    (List.range l.length).map (fun j => l.getD j d) = l := by
  induction l with
  | nil => rfl
  | cons a t ih =>
    rw [List.length_cons, List.range_succ_eq_map, List.map_cons, List.map_map]
    refine congrArg (a :: ·) ?_
    show (List.range t.length).map ((fun j => (a :: t).getD j d) ∘ Nat.succ) = t
    have : ((fun j => (a :: t).getD j d) ∘ Nat.succ) = fun j => t.getD j d := by
      funext j
      simp [List.getD_cons_succ]
    rw [this, ih]

theorem selectNonNullCols_of_allSome (df : MDataFrame)
    (wf : ∀ r ∈ df.rows, r.length = df.names.length)
    (hne : ¬df.rows.isEmpty = true)
    (hsome : ∀ r ∈ df.rows, r.all Option.isSome = true) :
    selectNonNullCols df = df := by
  have hrow : ∃ r0 rs, df.rows = r0 :: rs := by
    rcases hr : df.rows with _ | ⟨r0, rs⟩
    · rw [hr] at hne; simp at hne
    · exact ⟨r0, rs, rfl⟩
  obtain ⟨r0, rs, hr⟩ := hrow
  have hkeep : ∀ j ∈ List.range df.names.length,
      (!colIsEmpty df && !colAllNull df j) = true := by
    intro j hj
    have hjlt : j < df.names.length := List.mem_range.mp hj
    have hr0 : r0 ∈ df.rows := by rw [hr]; exact List.mem_cons_self _ _
    have hlen : r0.length = df.names.length := wf r0 hr0
    have hs : (r0.getD j none).isSome = true := by
      rw [List.getD_eq_getElem _ _ (by omega)]
      have := hsome r0 hr0
      rw [List.all_eq_true] at this
      exact this _ (List.getElem_mem _)
    have hNone : (r0.getD j none).isNone = false := by
      rcases hx : r0.getD j none with _ | v
      · rw [hx] at hs
        simp at hs
      · rfl
    have hempty : colIsEmpty df = false := by
      unfold colIsEmpty
      rw [hr]
      rfl
    have hnull : colAllNull df j = false := by
      unfold colAllNull
      rw [hr, List.all_cons]
      simp only [hNone, Bool.false_and]
    rw [hempty, hnull]
    rfl
  have hfilter : keptCols df = List.range df.names.length :=
    List.filter_eq_self.mpr hkeep
  unfold selectNonNullCols
  rw [hfilter]
  have hnames : (List.range df.names.length).map (fun j => df.names.getD j "") = df.names :=
    map_getD_range df.names ""
  have hrows : df.rows.map
      (fun r => (List.range df.names.length).map (fun j => r.getD j none)) = df.rows := by
    have hpt : ∀ r ∈ df.rows,
        (List.range df.names.length).map (fun j => r.getD j none) = r := by
      intro r hrm
      have hlen : r.length = df.names.length := wf r hrm
      rw [← hlen]
      exact map_getD_range r none
    calc df.rows.map (fun r => (List.range df.names.length).map (fun j => r.getD j none))
        = df.rows.map id := List.map_congr_left hpt
      _ = df.rows := List.map_id df.rows
  rw [hnames, hrows]

theorem selectNonNullCols_of_noRows (df : MDataFrame)
    (hr : df.rows = []) : selectNonNullCols df = { names := [], rows := [] } := by
  have hk : keptCols df = [] := by
    apply List.filter_eq_nil_iff.mpr
    intro j _
    simp [colIsEmpty, hr]
  unfold selectNonNullCols
  rw [hk, hr]
  rfl

/-- What `clean_dataframe` actually computes on a well-formed frame: the row
pass keeps exactly the rows with NO null cell (`drop_nulls(None)` drops a
row as soon as any cell is null); afterwards no null remains, so the column
pass never removes a column when rows survive, and removes every column when
none does. -/
theorem cleanDataframe_eq (df : MDataFrame)
    (wf : ∀ r ∈ df.rows, r.length = df.names.length) :
    cleanDataframe df =
      (if df.rows.isEmpty || df.names.isEmpty then none
       else if (df.rows.filter (fun r => r.all Option.isSome)).isEmpty then none
       else some { names := df.names
                   rows := df.rows.filter (fun r => r.all Option.isSome) }) := by
  unfold cleanDataframe
  by_cases h0 : (df.rows.isEmpty || df.names.isEmpty) = true
  · rw [if_pos h0, if_pos h0]
  · have h0' := h0
    simp only [Bool.or_eq_true, not_or, Bool.not_eq_true] at h0'
    obtain ⟨hrowsne, hnamesne⟩ := h0'
    rw [if_neg h0, if_neg h0]
    have hd1 : dropNullRows df =
        { df with rows := df.rows.filter (fun r => r.all Option.isSome) } := rfl
    rcases hkept : df.rows.filter (fun r => r.all Option.isSome) with _ | ⟨r0, rs⟩
    · have hsel : selectNonNullCols (dropNullRows df) = { names := [], rows := [] } := by
        apply selectNonNullCols_of_noRows
        rw [hd1, hkept]
      rw [hsel, hkept]
      rfl
    · have hwf1 : ∀ r ∈ (dropNullRows df).rows, r.length = (dropNullRows df).names.length := by
        intro r hrm
        exact wf r (List.mem_of_mem_filter hrm)
      have hsome1 : ∀ r ∈ (dropNullRows df).rows, r.all Option.isSome = true := by
        intro r hrm
        have hrm' : r ∈ df.rows.filter (fun r => r.all Option.isSome) := hrm
        exact (List.mem_filter.mp hrm').2
      have hne1 : ¬(dropNullRows df).rows.isEmpty = true := by
        rw [hd1]
        simp only [hkept]
        simp
      rw [selectNonNullCols_of_allSome (dropNullRows df) hwf1 hne1 hsome1, hd1]
      simp only [hkept]
      have hcond : (((r0 :: rs).isEmpty || df.names.isEmpty)) = false := by
        simp [hnamesne]
      rw [if_neg (by rw [hcond]; exact Bool.false_ne_true),
        if_neg (by simp : ¬(r0 :: rs).isEmpty = true)]

/-! ## Lemmas about `analyze_column` statistics (claim C8) -/

theorem foldStats_cons (v : XData) (l : List XData) :
    foldStats (v :: l) = statsMerge (statsStep statsInit v) (foldStats l) := by
  show (v :: l).foldl statsStep statsInit = _
  rw [List.foldl_cons, foldl_statsStep_eq]

theorem foldStats_nulls (values : List XData) :
    (foldStats values).1 = values.countP (fun v => v.isEmptyCell) := by
  induction values with
  | nil => rfl
  | cons v l ih =>
    rw [foldStats_cons, List.countP_cons]
    show (statsStep statsInit v).1 + (foldStats l).1 = _
    cases v <;> simp [statsStep, statsInit, XData.isEmptyCell, ih, Nat.add_comm]

theorem foldStats_set (values : List XData) :
    (foldStats values).2.1 =
      ((values.filter (fun v => !v.isEmptyCell)).map XData.toStr).toFinset := by
  induction values with
  | nil => rfl
  | cons v l ih =>
    rw [foldStats_cons]
    show (statsStep statsInit v).2.1 ∪ (foldStats l).2.1 = _
    cases v <;>
      simp [statsStep, statsInit, XData.isEmptyCell, ih, List.filter_cons,
        Finset.insert_eq]

theorem foldl_min_comm (t : List String) :
    ∀ s a : String, t.foldl min (min s a) = min s (t.foldl min a) := by
  induction t with
  | nil => intro s a; rfl
  | cons b t ih =>
    intro s a
    show t.foldl min (min (min s a) b) = min s (t.foldl min (min a b))
    rw [min_assoc, ih]

theorem foldl_max_comm (t : List String) :
    ∀ s a : String, t.foldl max (max s a) = max s (t.foldl max a) := by
  induction t with
  | nil => intro s a; rfl
  | cons b t ih =>
    intro s a
    show t.foldl max (max (max s a) b) = max s (t.foldl max (max a b))
    rw [max_assoc, ih]

theorem mergeMinMax_single_min (s : String) (t : List String) :
    (mergeMinMax (some s, some s) (t.min?, t.max?)).1 = (s :: t).min? := by
  cases t with
  | nil => rfl
  | cons a t =>
    show some (if s < t.foldl min a then s else t.foldl min a) =
      some (t.foldl min (min s a))
    rw [ite_lt_eq_min, foldl_min_comm]

theorem mergeMinMax_single_max (s : String) (t : List String) :
    (mergeMinMax (some s, some s) (t.min?, t.max?)).2 = (s :: t).max? := by
  cases t with
  | nil => rfl
  | cons a t =>
    show some (if t.foldl max a < s then s else t.foldl max a) =
      some (t.foldl max (max s a))
    rw [ite_lt_eq_max, foldl_max_comm]

theorem foldStats_minmax (values : List XData) :
    (foldStats values).2.2 =
      (((values.filter (fun v => !v.isEmptyCell)).map XData.toStr).min?,
       ((values.filter (fun v => !v.isEmptyCell)).map XData.toStr).max?) := by
  induction values with
  | nil => rfl
  | cons v l ih =>
    rw [foldStats_cons]
    show mergeMinMax (statsStep statsInit v).2.2 (foldStats l).2.2 = _
    by_cases he : v.isEmptyCell = true
    · have hstep : (statsStep statsInit v).2.2 = (none, none) := by
        cases v <;> simp_all [statsStep, statsInit, XData.isEmptyCell]
      rw [hstep, mergeMinMax_none_left, ih]
      simp [List.filter_cons, he]
    · have hstep : (statsStep statsInit v).2.2 = (some v.toStr, some v.toStr) := by
        cases v <;> simp_all [statsStep, statsInit, XData.isEmptyCell, updateMinMax]
      rw [hstep, ih, List.filter_cons, if_pos (by simp [he]), List.map_cons]
      rw [Prod.ext_iff]
      exact ⟨mergeMinMax_single_min _ _, mergeMinMax_single_max _ _⟩

/-! ## Lemmas about `detect_date_columns` (claim C9) -/

theorem dateColArm_eq_some (c : PColumn) (name : String) :
    dateColArm c = some name ↔
      c.name = name ∧ ∃ v, c.cells.head? = some (some v) ∧ isDateString v = true := by
  unfold dateColArm
  rcases hh : c.cells.head? with _ | ov
  · constructor
    · intro h
      exact absurd h (by simp)
    · rintro ⟨_, v, hv, _⟩
      exact absurd hv (by simp)
  · rcases ov with _ | v
    · constructor
      · intro h
        exact absurd h (by simp)
      · rintro ⟨_, v, hv, _⟩
        exact absurd hv (by simp)
    · show (if isDateString v then some c.name else none) = some name ↔
        c.name = name ∧ ∃ v', some (some v) = some (some v') ∧ isDateString v' = true
      by_cases hd : isDateString v = true
      · rw [if_pos hd]
        constructor
        · intro h
          exact ⟨Option.some.inj h, v, rfl, hd⟩
        · rintro ⟨hn, _⟩
          rw [hn]
      · rw [if_neg hd]
        constructor
        · intro h
          exact absurd h (by simp)
        · rintro ⟨hn, v', hv', hd'⟩
          have hv2 : v = v' := Option.some.inj (Option.some.inj hv')
          rw [← hv2] at hd'
          exact absurd hd' hd

theorem mem_detectDateColumns (df : List PColumn) (name : String) :
    name ∈ detectDateColumns df ↔
      ∃ c ∈ df, c.name = name ∧
        ∃ v, c.cells.head? = some (some v) ∧ isDateString v = true := by
  unfold detectDateColumns
  rw [List.mem_filterMap]
  constructor
  · rintro ⟨c, hc, harm⟩
    exact ⟨c, hc, (dateColArm_eq_some c name).mp harm⟩
  · rintro ⟨c, hc, hprop⟩
    exact ⟨c, hc, (dateColArm_eq_some c name).mpr hprop⟩

theorem normalizeDateColumns_recast_only (df : List PColumn) (cols : List String) :
    ∀ c ∈ normalizeDateColumns df cols, c.isDatetime = true →
      c.name ∈ cols ∨ ∃ c0 ∈ df, c0.name = c.name ∧ c0.isDatetime = true := by
  intro c hc hdt
  unfold normalizeDateColumns at hc
  obtain ⟨c0, hc0, heq⟩ := List.mem_map.mp hc
  by_cases hm : c0.name ∈ cols
  · rw [if_pos hm] at heq
    left
    rw [← heq]
    exact hm
  · rw [if_neg hm] at heq
    right
    exact ⟨c0, hc0, by rw [heq], by rw [heq]; exact hdt⟩

/-! ## Lemmas about `load_dataframe` (claims C1, C2, C10) -/

theorem appendRow_head (name : String) (acc : List MRow) (rest : Tables)
    (hrest : ∀ e ∈ rest, e.1 ≠ name) (r : MRow) :
    appendRow ((name, acc) :: rest) name r = (name, acc ++ [r]) :: rest := by
  unfold appendRow
  rw [List.map_cons, if_pos rfl]
  refine congrArg _ ?_
  calc rest.map (fun e => if e.1 = name then (e.1, e.2 ++ [r]) else e)
      = rest.map id := List.map_congr_left (fun e he => by
        rw [if_neg (hrest e he)]; rfl)
    _ = rest := List.map_id rest

theorem insertRows_fail (name : String) (rows : List MRow) :
    ∀ (k idx : Nat) (acc : List MRow) (rest : Tables),
      (∀ e ∈ rest, e.1 ≠ name) → k < rows.length →
      insertRows ((name, acc) :: rest) name rows idx (some (idx + k)) =
        ((name, acc ++ rows.take k) :: rest, false) := by
  induction rows with
  | nil =>
    intro k idx acc rest _ hk
    simp at hk
  | cons r rs ih =>
    intro k idx acc rest hrest hk
    cases k with
    | zero =>
      unfold insertRows
      rw [if_pos (by rw [Nat.add_zero])]
      simp
    | succ k0 =>
      unfold insertRows
      rw [if_neg (by intro hcontra; have := Option.some.inj hcontra; omega)]
      rw [appendRow_head name acc rest hrest r]
      have hshift : idx + (k0 + 1) = (idx + 1) + k0 := by omega
      rw [hshift, ih k0 (idx + 1) (acc ++ [r]) rest hrest (by simpa using hk)]
      rw [List.take_succ_cons, List.append_assoc]
      rfl

/-! ## Claim theorems -/

/-- C5: the statistics merge — null counts add, distinct sets union, min/max
pairs merge via `merge_min_max` with `None` as identity — is associative and
commutative, and folding the contiguous chunks of any partition of a value
sequence and merging the partial results equals the single sequential fold
over the whole sequence. -/
theorem C5_merge_assoc_comm_partition :
    (∀ a b c : ColStats, statsMerge (statsMerge a b) c = statsMerge a (statsMerge b c)) ∧
    (∀ a b : ColStats, statsMerge a b = statsMerge b a) ∧
    ∀ chunks : List (List XData),
      (chunks.map foldStats).foldl statsMerge statsInit = foldStats chunks.flatten :=
  ⟨statsMerge_assoc, statsMerge_comm, fun chunks => by
    rw [foldl_statsMerge_chunks chunks statsInit, statsMerge_init_left]⟩

/-- C3 counterexample: a non-empty sample consisting solely of empty cells
is classified `"string"` by `detect_column_type`, not `"empty"` as the claim
requires (its `total` — sampled count minus empties — would be 0 there). -/
theorem C3_claimed_counterexample :
    detectColumnType [XData.empty] = "string" ∧ ("string" : String) ≠ "empty" := by
  constructor
  · decide
  · decide

/-- C3 (amended): `detect_column_type` computes `total` as the FULL number of
sampled cells (the fold's `empty_count` is always 0 because `Data::Empty`
cells are filtered out before counting), returns `"empty"` only for a sample
with zero cells — a non-empty all-empty sample is classified `"string"` —
and otherwise classifies into the first of numeric, date, boolean whose
count among the non-empty cells of the first 100 values reaches 80% of that
total, else `"string"`; for samples without empty cells the 80% boundary
behaves as claimed: exactly 80% numeric is `"numeric"`, 79% is not. -/
theorem C3_detect_column_type_amended :
    (∀ values : List XData,
      detectColumnType values =
        (let sample := (values.take TYPE_DETECTION_ROWS).filter (fun v => !v.isEmptyCell)
         let total := values.length
         if total = 0 then "empty"
         else if 5 * sample.countP (fun v => isNumericCell v) ≥ 4 * total then "numeric"
         else if 5 * sample.countP (fun v => isDateCell v) ≥ 4 * total then "date"
         else if 5 * sample.countP (fun v => isBoolCell v) ≥ 4 * total then "boolean"
         else "string")) ∧
    detectColumnType sample80 = "numeric" ∧
    detectColumnType sample79 = "string" := by
  refine ⟨detectColumnType_eq, ?_, ?_⟩
  · decide
  · decide

/-- C7 counterexample: the raw header `"İ"` (U+0130).  It is alphabetic, so
the sanitizer keeps it, and `str::to_lowercase` expands it to `i` followed
by the combining dot above U+0307 — a character that is neither alphanumeric
nor `_` — so `clean_column_name` returns the identifier-INVALID name
`"i\u{307}"`, refuting the claim's validity conjunct.  (The header `"é"` by
contrast is kept verbatim and is valid under the claim's Unicode reading of
"alphanumeric".) -/
theorem C7_claimed_counterexample :
    cleanColumnNames ["İ"] ∅ = ["i̇"] ∧
    ¬ validIdent "i̇" ∧
    cleanColumnNames ["é"] ∅ = ["é"] := by
  refine ⟨by decide, ?_, by decide⟩
  unfold validIdent
  decide

/-- C7 (amended): for every list of raw header strings, applying
`clean_column_name` with one shared seen-name set yields a list of the same
length with pairwise-distinct elements, and it is total, in particular on
the empty list; when every input character is ASCII, each output is
additionally valid as a store identifier (only alphanumeric or underscore
characters, starting with an alphabetic character, possibly through the
`col_` marker).  For non-ASCII headers validity can fail: Unicode
lowercasing may emit combining marks (see the counterexample). -/
theorem C7_header_normalizer_amended :
    ∀ names : List String,
      (cleanColumnNames names ∅).length = names.length ∧
      (cleanColumnNames names ∅).Nodup ∧
      ((∀ name ∈ names, ∀ c ∈ name.data, c.toNat < 128) →
        ∀ s ∈ cleanColumnNames names ∅, validIdent s) :=
  fun names =>
    ⟨cleanColumnNames_length names ∅, cleanColumnNames_nodup names ∅,
      fun hA s hs => cleanColumnNames_valid_ascii names ∅ hA s hs⟩

/-- C4 counterexample: a frame with one row `[some "x", null]` — a row with
at least one non-null cell, which the claim says is retained, in a frame
whose second column is entirely null.  The claim predicts
`some ⟨["a"], [[some "x"]]⟩`, but `clean_dataframe` returns `none`:
`drop_nulls(None)` drops the row because ONE of its cells is null. -/
theorem C4_claimed_counterexample :
    cleanDataframe demoDf4 = none ∧
    cleanDataframeClaimed demoDf4 =
      some { names := ["a"], rows := [[some "x"]] } ∧
    cleanDataframe demoDf4 ≠ cleanDataframeClaimed demoDf4 := by
  refine ⟨by decide, by decide, by decide⟩

/-- C4 (amended): on a well-formed frame, cleaning removes exactly the rows
containing AT LEAST ONE null cell (not only the all-null ones); after that
row pass no null remains, so the column pass drops no column when any row
survives (and every column when none does), and the result is `none` exactly
when the input was degenerate or the row pass left zero rows. -/
theorem C4_clean_dataframe_amended :
    ∀ df : MDataFrame, (∀ r ∈ df.rows, r.length = df.names.length) →
      cleanDataframe df =
        (if df.rows.isEmpty || df.names.isEmpty then none
         else if (df.rows.filter (fun r => r.all Option.isSome)).isEmpty then none
         else some { names := df.names
                     rows := df.rows.filter (fun r => r.all Option.isSome) }) :=
  fun df wf => cleanDataframe_eq df wf

/-- C4 witness: the amended statement applied at a concrete two-row frame. -/
theorem C4_clean_dataframe_amended_witness :
    cleanDataframe { names := ["a"], rows := [[some "x"], [none]] } =
      (if ([[some "x"], [(none : Option String)]] : List (List (Option String))).isEmpty ||
          (["a"] : List String).isEmpty then none
       else if (([[some "x"], [none]] : List (List (Option String))).filter
          (fun r => r.all Option.isSome)).isEmpty then none
       else some { names := ["a"]
                   rows := ([[some "x"], [none]] : List (List (Option String))).filter
                     (fun r => r.all Option.isSome) }) :=
  C4_clean_dataframe_amended { names := ["a"], rows := [[some "x"], [none]] } (by decide)

/-- C8 counterexample: a sheet with 150 data rows whose last 50 cells in
column 0 are empty.  The reported `null_count` is 0 — computed over the same
100-row sample used for type inference — while the full taken window
contains 50 empties, so the statistics are NOT computed over the full
window. -/
theorem C8_claimed_counterexample :
    (analyzeColumn (columnValues demoRows8 0) "c").nullCount = 0 ∧
    (fullWindowValues demoRows8 0).countP (fun v => v.isEmptyCell) = 50 ∧
    (analyzeColumn (columnValues demoRows8 0) "c").nullCount ≠
      (fullWindowValues demoRows8 0).countP (fun v => v.isEmptyCell) := by
  refine ⟨by decide, by decide, by decide⟩

/-- C8 (amended): the statistics reported in `ColumnInfo` are computed over
the bounded sample `columnValues` — the first `TYPE_DETECTION_ROWS = 100`
data rows, the same list used for type inference — not over the full taken
window: null count is the number of empty cells of that sample, unique count
the cardinality of the set of renderings of its non-empty cells, min/max the
lexicographic extremes of those renderings, and the duplicate flag compares
unique count against the sample's non-null count. -/
theorem C8_stats_over_sample_amended :
    ∀ (rows : List (List XData)) (idx : Nat) (name : String),
      (analyzeColumn (columnValues rows idx) name).nullCount =
          (columnValues rows idx).countP (fun v => v.isEmptyCell) ∧
      (analyzeColumn (columnValues rows idx) name).uniqueCount =
          (((columnValues rows idx).filter
            (fun v => !v.isEmptyCell)).map XData.toStr).toFinset.card ∧
      (analyzeColumn (columnValues rows idx) name).minValue =
          (((columnValues rows idx).filter
            (fun v => !v.isEmptyCell)).map XData.toStr).min? ∧
      (analyzeColumn (columnValues rows idx) name).maxValue =
          (((columnValues rows idx).filter
            (fun v => !v.isEmptyCell)).map XData.toStr).max? ∧
      ((analyzeColumn (columnValues rows idx) name).hasDuplicates = true ↔
        (analyzeColumn (columnValues rows idx) name).uniqueCount <
          (columnValues rows idx).length -
            (analyzeColumn (columnValues rows idx) name).nullCount) ∧
      columnValues rows idx =
        ((rows.drop 1).take TYPE_DETECTION_ROWS).filterMap (fun r => r.get? idx) := by
  intro rows idx name
  refine ⟨foldStats_nulls _, congrArg Finset.card (foldStats_set _),
    congrArg Prod.fst (foldStats_minmax _), congrArg Prod.snd (foldStats_minmax _),
    decide_eq_true_iff, rfl⟩

/-- C9 counterexample: a column whose FIRST value is a date-pattern string
but whose other four values are not (20% of the sample, far below 80%).
`detect_date_columns` selects it anyway, because the code inspects only
`ca.get(0)`; the claim's 80%-of-a-100-row-sample rule selects nothing. -/
theorem C9_claimed_counterexample :
    detectDateColumns demoDf9 = ["d"] ∧
    detectDateColumnsClaimed demoDf9 = [] ∧
    detectDateColumns demoDf9 ≠ detectDateColumnsClaimed demoDf9 := by
  refine ⟨by decide, by decide, by decide⟩

/-- C9 (amended): the second date-detection pass selects exactly the columns
whose first string-cast value exists, is non-null and matches
`is_date_string` (not an 80% sample vote), and `normalize_date_columns`
marks as datetime only columns that were selected or already were
datetime. -/
theorem C9_first_value_rule_amended :
    (∀ (df : List PColumn) (name : String),
      name ∈ detectDateColumns df ↔
        ∃ c ∈ df, c.name = name ∧
          ∃ v, c.cells.head? = some (some v) ∧ isDateString v = true) ∧
    ∀ (df : List PColumn) (cols : List String) (c : PColumn),
      c ∈ normalizeDateColumns df cols → c.isDatetime = true →
        c.name ∈ cols ∨ ∃ c0 ∈ df, c0.name = c.name ∧ c0.isDatetime = true :=
  ⟨mem_detectDateColumns,
    fun df cols c hc hdt => normalizeDateColumns_recast_only df cols c hc hdt⟩

/-- C1 counterexample: the store already holds table `t` with two rows; a
reload of `t` with two new rows fails at the insert of row index 1.  The
call reports failure, but the store now exposes `t` with EXACTLY ONE new row
— neither the previous table (already dropped) nor the fully replaced one —
because the inserts run in autocommit mode with no transaction. -/
theorem C1_claimed_counterexample :
    (loadDataframe stPrev frameDemo "t" oracleInsert1).2 = false ∧
    (loadDataframe stPrev frameDemo "t" oracleInsert1).1.tables =
      [("t", [[some "x"]])] ∧
    [(("t", [[some "x"]]) : String × List MRow)] ≠ stPrev.tables ∧
    ([[some "x"]] : List MRow) ≠ frameDemo.rows := by
  refine ⟨by decide, by decide, by decide, by decide⟩

/-- C1 (amended): `load_dataframe` uses no transaction.  When every earlier
step succeeds and the insert of row `k` fails, the call returns a load
failure, the previous table of that name is already dropped, and the store
exposes the new table holding exactly the first `k` rows; the metadata is
left unchanged. -/
theorem C1_load_not_transactional_amended :
    ∀ (st : DbState) (frame : MFrame) (name : String) (k : Nat),
      k < frame.rows.length →
      loadDataframe st frame name
          { dropFails := false, createFails := false, prepareFails := false,
            insertFailsAt := some k, verifyFails := false } =
        ({ tables := (name, frame.rows.take k) :: dropTable st.tables name,
           currentTable := st.currentTable, columnNames := st.columnNames }, false) := by
  intro st frame name k hk
  have hrest : ∀ e ∈ dropTable st.tables name, e.1 ≠ name := by
    intro e he
    exact of_decide_eq_true (List.mem_filter.mp he).2
  have h0 : insertRows ((name, ([] : List MRow)) :: dropTable st.tables name) name
      frame.rows 0 (some k) =
      ((name, [] ++ frame.rows.take k) :: dropTable st.tables name, false) := by
    have h1 := insertRows_fail name frame.rows k 0 [] (dropTable st.tables name) hrest hk
    rwa [Nat.zero_add] at h1
  simp only [loadDataframe, Bool.false_eq_true, if_false, h0, List.nil_append]

/-- C1 witness: the amended statement applied at a concrete store state with
a previous `t` table, a two-row frame and an insert failure at row 1. -/
theorem C1_load_not_transactional_witness :
    loadDataframe stPrev frameDemo "t"
        { dropFails := false, createFails := false, prepareFails := false,
          insertFailsAt := some 1, verifyFails := false } =
      ({ tables := ("t", frameDemo.rows.take 1) :: dropTable stPrev.tables "t",
         currentTable := stPrev.currentTable, columnNames := stPrev.columnNames }, false) :=
  C1_load_not_transactional_amended stPrev frameDemo "t" 1 (by decide)

/-- C2 counterexample: from a fresh loader, a load whose first row insert
fails.  The claim says `current_table`/`column_names` are published
unconditionally BEFORE the store write, so after the failure they would read
`some "t"` / `["a"]` and `has_data()` would be true; in fact all metadata is
untouched and `has_data()` is false.  (There is no frame cache anywhere in
`DbLoader` for the claim's cache clause to refer to.) -/
theorem C2_claimed_counterexample :
    (loadDataframe stFresh frameDemo "t" oracleInsert0).2 = false ∧
    (loadDataframe stFresh frameDemo "t" oracleInsert0).1.currentTable = none ∧
    (loadDataframe stFresh frameDemo "t" oracleInsert0).1.currentTable ≠ some "t" ∧
    (loadDataframe stFresh frameDemo "t" oracleInsert0).1.columnNames = [] ∧
    hasData (loadDataframe stFresh frameDemo "t" oracleInsert0).1 = false := by
  refine ⟨by decide, by decide, by decide, by decide, by decide⟩

/-- C2 (amended): the metadata is published exactly when the whole load
succeeded — `current_table` and `column_names` equal the new values if the
call returned `Ok` and the previous values otherwise — so `has_data()`
reflects a completed load, not an attempted one. -/
theorem C2_metadata_published_on_success_amended :
    ∀ (st : DbState) (frame : MFrame) (name : String) (o : Oracle),
      (loadDataframe st frame name o).1.currentTable =
        (if (loadDataframe st frame name o).2 = true then some name
         else st.currentTable) ∧
      (loadDataframe st frame name o).1.columnNames =
        (if (loadDataframe st frame name o).2 = true then frame.columnNames
         else st.columnNames) := by
  intro st frame name o
  unfold loadDataframe
  cases hd : o.dropFails with
  | true => simp [hd]
  | false =>
    cases hc : o.createFails with
    | true => simp [hd, hc]
    | false =>
      cases hp : o.prepareFails with
      | true => simp [hd, hc, hp]
      | false =>
        rcases hins : insertRows ((name, []) :: dropTable st.tables name) name
            frame.rows 0 o.insertFailsAt with ⟨t3, ok⟩
        cases ok with
        | false => simp [hd, hc, hp, hins]
        | true =>
          cases hv : o.verifyFails with
          | true => simp [hd, hc, hp, hins, hv]
          | false => simp [hd, hc, hp, hins, hv]

/-- C10: `current_table` and `column_names` are left exactly as they were
whenever `load_dataframe` returns an error — whichever step failed — and are
assigned (to the loaded table's name and the frame's column names) only when
every row was inserted and the verification succeeded; consequently
`has_data()` turning true requires a fully completed load. -/
theorem C10_metadata_assigned_only_after_success :
    ∀ (st : DbState) (frame : MFrame) (name : String) (o : Oracle),
      ((loadDataframe st frame name o).2 = false →
        (loadDataframe st frame name o).1.currentTable = st.currentTable ∧
        (loadDataframe st frame name o).1.columnNames = st.columnNames) ∧
      ((loadDataframe st frame name o).2 = true →
        (loadDataframe st frame name o).1.currentTable = some name ∧
        (loadDataframe st frame name o).1.columnNames = frame.columnNames) ∧
      (hasData (loadDataframe st frame name o).1 = true →
        (loadDataframe st frame name o).2 = true ∨ hasData st = true) := by
  intro st frame name o
  unfold loadDataframe
  cases hd : o.dropFails with
  | true => simp [hd, hasData]
  | false =>
    cases hc : o.createFails with
    | true => simp [hd, hc, hasData]
    | false =>
      cases hp : o.prepareFails with
      | true => simp [hd, hc, hp, hasData]
      | false =>
        rcases hins : insertRows ((name, []) :: dropTable st.tables name) name
            frame.rows 0 o.insertFailsAt with ⟨t3, ok⟩
        cases ok with
        | false => simp [hd, hc, hp, hins, hasData]
        | true =>
          cases hv : o.verifyFails with
          | true => simp [hd, hc, hp, hins, hv, hasData]
          | false => simp [hd, hc, hp, hins, hv, hasData]

/-- C6: evaluation of `is_date_string` at the claim's example input.  The
date-only string `"2024-01-15"` is REJECTED: every format is tried through
`chrono::NaiveDateTime::parse_from_str`, which fails whenever the format
provides no time fields, so the five date-only formats in the list can never
match any input; only the two `" %H:%M:%S"`-suffixed formats can succeed. -/
theorem C6_date_only_string_rejected :
    isDateString "2024-01-15" = false ∧
    isDateString "2024-01-15 10:30:00" = true ∧
    (∀ s : String, parseNaiveDateTimeOk [.year, .lit '-', .month, .lit '-', .day] s = false) := by
  refine ⟨by decide, by decide, ?_⟩
  intro s
  unfold parseNaiveDateTimeOk
  rcases hrun : runItems [.year, .lit '-', .month, .lit '-', .day] s.data {} with _ | p
  · rfl
  · have hh : FmtItem.hour ∉ [FmtItem.year, .lit '-', .month, .lit '-', .day] := by decide
    have : p.hour = (({} : ParsedFields)).hour := runItems_hour_of_not_mem _ hh _ _ _ hrun
    simp only [this]
    simp [ParsedFields.hour]

end SheetIngest
